import Mathlib

/-!
Verification development for the VC pitch analyzer pipeline.

The Python source is shallowly embedded: dictionaries and JSON-like data
become the inductive type `JVal`, Python floats become exact rationals `ℚ`
(the one genuinely transcendental operation, the fractional power used by
the CAGR rule, is embedded over `ℝ`), and fallible steps become `Except`.
Python's `round` (banker's rounding, half to even) is embedded as `pyRound`.
Each embedded definition carries the name of the source function it models.
-/

namespace VCPitch

/-- JSON-like values, the shallow embedding of the Python dict/list/scalar
data that flows through the pipeline (`src/orchestrator.py` and friends). -/
inductive JVal where
  | null
  | bool (b : Bool)
  | num (q : ℚ)
  | str (s : String)
  | arr (elems : List JVal)
  | obj (fields : List (String × JVal))

/-- Key lookup in an object, `d[k]`-style access returning `none` when the
value is not an object or the key is absent. -/
def jlookup : JVal → String → Option JVal
  | .obj fields, k => fields.lookup k
  | _, _ => none

/-- Python `d.get(k)`: `None` (here `JVal.null`) when absent. -/
def jget (j : JVal) (k : String) : JVal := (jlookup j k).getD .null

/-- Python `d.get(k, default)`. -/
def jgetD (j : JVal) (k : String) (d : JVal) : JVal := (jlookup j k).getD d

/-- Python truthiness of a value (`if x:`). -/
def JVal.truthy : JVal → Bool
  | .null => false
  | .bool b => b
  | .num q => q != 0
  | .str s => s != ""
  | .arr elems => !elems.isEmpty
  | .obj fields => !fields.isEmpty

/-- Numeric field access `d.get(k, default)` where the caller treats the
result as a float; a present non-numeric value is modelled as the default
(the source would fail on it later, and no modelled input exercises that). -/
def jnum (j : JVal) (k : String) (d : ℚ) : ℚ :=
  match jlookup j k with
  | some (.num q) => q
  | _ => d

/-- Python `round` on exact rationals: round half to even (banker's
rounding), the semantics of `round(x)` used throughout the source. -/
def pyRound (q : ℚ) : ℤ :=
  if q - ⌊q⌋ < 1 / 2 then ⌊q⌋
  else if 1 / 2 < q - ⌊q⌋ then ⌊q⌋ + 1
  else if 2 ∣ ⌊q⌋ then ⌊q⌋ else ⌊q⌋ + 1

/-- Python `round(x, 1)`. -/
def round1 (q : ℚ) : ℚ := (pyRound (q * 10) : ℚ) / 10

/-! ## Currency converter (`src/currency_converter.py`) -/

/-- Default rate table of `_get_currency_rates` (USD-based rates). -/
def defaultRates : List (String × ℚ) :=
  [("USD", 1.0), ("EUR", 0.85), ("GBP", 0.73), ("JPY", 110.0), ("CNY", 6.45),
   ("INR", 75.0), ("AUD", 1.35), ("CAD", 1.25), ("SGD", 1.35), ("CHF", 0.92)]

/-- Fallback table of `_get_default_rate`, with the arbitrary `50.0`
fallback for unsupported currencies. -/
def fallbackRates : List (String × ℚ) :=
  [("USD", 1.0), ("EUR", 0.85), ("GBP", 0.73), ("JPY", 110.0), ("CNY", 6.45),
   ("INR", 75.0), ("AUD", 1.35), ("CAD", 1.25), ("SGD", 1.35), ("CHF", 0.92),
   ("HKD", 7.8), ("NZD", 1.4), ("SEK", 8.6), ("KRW", 1150.0), ("NOK", 8.5),
   ("MXN", 20.0), ("BRL", 5.3), ("RUB", 75.0), ("ZAR", 15.0), ("TRY", 8.6)]

/-- `_get_default_rate`. -/
def getDefaultRate (c : String) : ℚ :=
  match fallbackRates.lookup c with
  | some r => r
  | none => 50.0

/-- `_get_currency_rates`: config rates override the defaults per key
(`dict.update`), defaults are retained for unspecified currencies. -/
def getCurrencyRates (cfgRates : List (String × ℚ)) : List (String × ℚ) :=
  cfgRates ++ defaultRates

/-- `convert_currency` on a non-null amount: pivot through USD, dividing by
the source rate and multiplying by the target rate, falling back to
`_get_default_rate` when a currency is missing from the table.  (The
source's `amount is None → None` guard sits at the call sites here, which
only call with a present numeric value.) -/
def convert_currency (amount : ℚ) (fromC toC : String) (rates : List (String × ℚ)) : ℚ :=
  if fromC = toC then amount
  else
    let amountUsd :=
      if fromC ≠ "USD" then
        amount / (match rates.lookup fromC with
                  | some r => r
                  | none => getDefaultRate fromC)
      else amount
    if toC ≠ "USD" then
      amountUsd * (match rates.lookup toC with
                   | some r => r
                   | none => getDefaultRate toC)
    else amountUsd

/-! ## Scoring engine (`src/scoring_engine.py`) -/

/-- `ScoringEngine.DEFAULT_WEIGHTS`. -/
def DEFAULT_WEIGHTS : List (String × ℚ) :=
  [("MarketAnalysis", 0.20), ("CompetitiveLandscape", 0.15), ("ProductMarketFit", 0.20),
   ("Finance", 0.25), ("WhyAnalysis", 0.10), ("Scalability", 0.10)]

/-- Per-key override step of `_get_weights`: each config entry replaces the
matching default entry; config keys outside the six defaults are ignored. -/
def mergeWeights (cfg : List (String × ℚ)) : List (String × ℚ) :=
  DEFAULT_WEIGHTS.map (fun kw =>
    match cfg.lookup kw.1 with
    | some w => (kw.1, w)
    | none => kw)

/-- Sum of the weights of a weight table. -/
def weightTotal (ws : List (String × ℚ)) : ℚ := (ws.map (fun kw => kw.2)).sum

/-- `ScoringEngine._get_weights`: merge the overrides into the defaults and
divide every weight by the total, but only when the total is positive. -/
def getWeights (cfg : List (String × ℚ)) : List (String × ℚ) :=
  let ws := mergeWeights cfg
  let total := weightTotal ws
  if 0 < total then ws.map (fun kw => (kw.1, kw.2 / total)) else ws

/-- One entry of `category_scores` in `ScoringEngine.score`. -/
structure CategoryScore where
  raw_score : ℚ
  adjusted_score : ℚ
  weight : ℚ
  weighted_score : ℚ

/-- `analysis_results[category].get("category_average", 0)`. -/
def getCategoryAverage (v : JVal) : ℚ := jnum v "category_average" 0

/-- `ScoringEngine._adjust_score_with_research`. -/
def adjustScoreWithResearch (score : ℚ) (research : Option JVal) : ℚ :=
  match research with
  | none => score
  | some r =>
    if !r.truthy then score
    else
      let cred := jnum (jgetD r "summary" (.obj [])) "credibility_score" 0
      let adjustment : ℚ := if 80 ≤ cred then 0.5 else if 50 ≤ cred then 0 else -1.0
      max 1 (min 10 (score + adjustment))

/-- Category-scores loop of `ScoringEngine.score`: every weighted category
that has an entry in `analysis_results` (error-shaped or not) receives a
`CategoryScore` built from its `category_average` (defaulting to 0). -/
def scoreCategories (weights : List (String × ℚ)) (analysis : List (String × JVal))
    (research : Option JVal) : List (String × CategoryScore) :=
  weights.filterMap (fun kw =>
    match analysis.lookup kw.1 with
    | some catData =>
      let ca := getCategoryAverage catData
      let adj := adjustScoreWithResearch ca research
      some (kw.1, ⟨ca, adj, kw.2, adj * kw.2⟩)
    | none => none)

/-- `ScoringEngine._calculate_overall_score`. -/
def calculateOverallScore (categoryScores : List (String × CategoryScore)) : ℚ :=
  let weightedSum := (categoryScores.map (fun c => c.2.weighted_score)).sum
  let weightsSum := (categoryScores.map (fun c => c.2.weight)).sum
  round1 (if 0 < weightsSum then weightedSum / weightsSum else 0)

/-! ## Orchestrator score helpers (`src/orchestrator.py`) -/

/-- Python `"error" in section` on an analysis-result value. -/
def hasErrorKey (v : JVal) : Bool := (jlookup v "error").isSome

/-- Weight table of `Orchestrator._calculate_investment_score`. -/
def IRS_WEIGHTS : List (String × ℚ) :=
  [("MarketAnalysis", 0.25), ("Finance", 0.25), ("ProductMarketFit", 0.20),
   ("Scalability", 0.15), ("CompetitiveLandscape", 0.15)]

/-- `Orchestrator._calculate_investment_score`: weighted average over the
categories that are both weighted and carry a `category_average`. -/
def calculateInvestmentScore (analysis : List (String × JVal)) : ℤ :=
  match analysis with
  | [] => 5
  | _ =>
    let used := analysis.filterMap (fun kv =>
      match IRS_WEIGHTS.lookup kv.1 with
      | some w =>
        match jlookup kv.2 "category_average" with
        | some (.num q) => some (q, w)
        | _ => none
      | none => none)
    let totalScore := (used.map (fun sw => sw.1 * sw.2)).sum
    let totalWeight := (used.map (fun sw => sw.2)).sum
    if 0 < totalWeight then pyRound (totalScore / totalWeight) else 7

/-- Fraction of analysis sections not shaped as errors, the
`confidence_pct` of `Orchestrator._calculate_confidence_score`. -/
def okFraction (analysis : List (String × JVal)) : ℚ :=
  (((analysis.length : ℚ)) - ((analysis.filter (fun kv => hasErrorKey kv.2)).length : ℚ)) /
    (analysis.length : ℚ)

/-- `Orchestrator._calculate_confidence_score`: 6 for an empty analyses
map, otherwise `round(5 + confidence_pct * 5)`. -/
def calcConfidenceScore (analysis : List (String × JVal)) : ℤ :=
  match analysis with
  | [] => 6
  | _ =>
    if analysis.length = 0 then 5
    else pyRound (5 + okFraction analysis * 5)

/-- `Orchestrator._calculate_uniqueness_score`. -/
def calculateUniquenessScore : ℤ := 75

/-! ## String utilities

The Python source leans on `str.replace`, `str.endswith`, `str.split`,
`str.isdigit` and `float(...)`.  These are re-implemented over the
character list of a `String` (the builtin byte-position based versions do
not matter for the semantics being verified). -/

/-- Removal of every occurrence of the characters in `bad` — the effect of
the chained single-character `str.replace(c, "")` calls in the source. -/
def stripChars (s : String) (bad : List Char) : String :=
  .mk (s.data.filter (fun c => !bad.contains c))

/-- Python `s.endswith(suf)`. -/
def strEndsWith (s suf : String) : Bool := suf.data.isSuffixOf s.data

/-- Python `s.split(sep)` for a single-character separator. -/
def splitOnChar (c : Char) : List Char → List (List Char)
  | [] => [[]]
  | a :: rest =>
    let r := splitOnChar c rest
    if a = c then [] :: r
    else
      match r with
      | g :: gs => (a :: g) :: gs
      | [] => [[a]]

/-- Python `s.isdigit()` (ASCII digits, the only ones that occur here). -/
def isDigitStr (cs : List Char) : Bool := !cs.isEmpty && cs.all Char.isDigit

/-- Numeric value of a digit string. -/
def digitsToNat (cs : List Char) : ℕ :=
  cs.foldl (fun acc c => 10 * acc + (c.toNat - 48)) 0

/-- Python `float(s)` restricted to unsigned decimal literals — the only
shapes the consistency checker ever parses successfully in the modelled
rules; any other input is `none` (the `ValueError` branch). -/
def parseDecimal (s : String) : Option ℚ :=
  match splitOnChar '.' s.data with
  | [w] => if isDigitStr w then some ((digitsToNat w : ℚ)) else none
  | [w, f] =>
    if w.all Char.isDigit && f.all Char.isDigit && (!w.isEmpty || !f.isEmpty) then
      some ((digitsToNat w : ℚ) + (digitsToNat f : ℚ) / (10 : ℚ) ^ f.length)
    else none
  | _ => none

/-- Grouping of a digit string into threes from the right, the thousands
separator of Python's `f"{x:,.0f}"` format. -/
def chunk3 : List Char → List (List Char)
  | [] => [[]]
  | [a] => [[a]]
  | [a, b] => [[a, b]]
  | [a, b, c] => [[a, b, c]]
  | a :: b :: c :: rest => [a, b, c] :: chunk3 rest

/-- Comma-join of digit groups. -/
def joinCommas : List (List Char) → List Char
  | [] => []
  | [g] => g
  | g :: gs => g ++ ',' :: joinCommas gs

/-- Python `f"{n:,}"` for a nonnegative integer rendered from its decimal
representation. -/
def insertCommas (s : String) : String :=
  .mk (joinCommas (((chunk3 s.data.reverse).map List.reverse).reverse))

/-- Python `f"${q:,.0f}"`: round to an integer (half to even) and group the
digits in threes.  Only nonnegative amounts occur in the modelled rules. -/
def formatMoney0 (q : ℚ) : String :=
  "$" ++ insertCommas (.mk (Nat.toDigits 10 (pyRound q).toNat))

/-! ## Consistency checker (`src/consistency_checker.py`) -/

/-- An issue record `{section, field, issue, severity}` (the dict literal
appended by the checker rules). -/
structure Issue where
  sec : String
  field : String
  issue : String
  severity : String

/-- A fix record `{section, field, current, corrected, note?}`. -/
structure Fix where
  sec : String
  field : String
  current : JVal
  corrected : JVal
  note : Option String

/-- Base-currency extraction
`normalized_data.get("units", {}).get("base_currency", "USD")` (the value
is a string in every modelled input). -/
def baseCurrencyOf (normalized : JVal) : String :=
  match jlookup (jgetD normalized "units" (.obj [])) "base_currency" with
  | some (.str s) => s
  | _ => "USD"

/-- Display form of a unit value interpolated into an issue message
(`f"... uses {unit} ..."`); only string units occur in modelled inputs. -/
def unitDisplay : JVal → String
  | .str s => s
  | .bool true => "True"
  | .bool false => "False"
  | .null => "None"
  | _ => ""

/-- Equality of a `JVal` against a Python string (the `unit != base` tests
compare against string constants, and any non-string value is unequal). -/
def jvalEqStr (v : JVal) (s : String) : Bool :=
  match v with
  | .str t => t == s
  | _ => false

/-- Mismatch test of `_check_currency_consistency` for one metric: the
metric is present, its `unit` is truthy, differs from the base currency and
from every exempt unit (`Percent`/`Ratio` in the finance block); the result
is the offending unit. -/
def currencyMismatch (base : String) (exempt : List String) (sectionData : JVal)
    (metric : String) : Option JVal :=
  match jlookup sectionData metric with
  | none => none
  | some md =>
    let unit := jget md "unit"
    if unit.truthy && !jvalEqStr unit base && exempt.all (fun u => !jvalEqStr unit u) then
      some unit
    else none

/-- Metrics checked in the `MarketAnalysis` block of
`_check_currency_consistency`. -/
def marketCurrencyMetrics : List String := ["tam", "sam", "som"]

/-- Metrics checked in the `Finance` block of
`_check_currency_consistency`. -/
def financeCurrencyMetrics : List String := ["gross_margin", "ebitda", "valuation", "ask"]

/-- Issues emitted by one block of `_check_currency_consistency` (the
source appends the issue and the fix in a single loop; issue and fix lists
are materialised by two passes over the same per-metric condition). -/
def currencyIssues (sec base : String) (exempt : List String) (sectionData : JVal)
    (metrics : List String) : List Issue :=
  metrics.filterMap (fun m =>
    (currencyMismatch base exempt sectionData m).map (fun unit =>
      ⟨sec, m,
       "Currency mismatch: " ++ m ++ " uses " ++ unitDisplay unit ++ " instead of " ++ base,
       "medium"⟩))

/-- Fixes emitted by one block of `_check_currency_consistency`. -/
def currencyFixes (sec base : String) (exempt : List String) (sectionData : JVal)
    (metrics : List String) : List Fix :=
  metrics.filterMap (fun m =>
    (currencyMismatch base exempt sectionData m).map (fun unit =>
      ⟨sec, m ++ ".unit", unit, .str base, none⟩))

/-- Issue/fix pair of one section block of `_check_currency_consistency`
(empty when the section is absent from the analyses map). -/
def sectionPair (sec base : String) (ex : List String) (opt : Option JVal)
    (ms : List String) : List Issue × List Fix :=
  match opt with
  | none => ([], [])
  | some sd => (currencyIssues sec base ex sd ms, currencyFixes sec base ex sd ms)

/-- `ConsistencyChecker._check_currency_consistency`: the `MarketAnalysis`
block checks `tam/sam/som`, the `Finance` block checks
`gross_margin/ebitda/valuation/ask` exempting `Percent` and `Ratio`
units; every other metric is out of the rule's scope. -/
def checkCurrencyConsistency (normalized : JVal) (analysis : List (String × JVal)) :
    List Issue × List Fix :=
  let base := baseCurrencyOf normalized
  let mkt :=
    match analysis.lookup "MarketAnalysis" with
    | none => (([] : List Issue), ([] : List Fix))
    | some ma =>
      (currencyIssues "MarketAnalysis" base [] ma marketCurrencyMetrics,
       currencyFixes "MarketAnalysis" base [] ma marketCurrencyMetrics)
  let fin :=
    match analysis.lookup "Finance" with
    | none => (([] : List Issue), ([] : List Fix))
    | some fa =>
      (currencyIssues "Finance" base ["Percent", "Ratio"] fa financeCurrencyMetrics,
       currencyFixes "Finance" base ["Percent", "Ratio"] fa financeCurrencyMetrics)
  (mkt.1 ++ fin.1, mkt.2 ++ fin.2)

/-- Money-string parser inlined in `_check_market_size_hierarchy`: strip
`$` and `,`, apply a `B`/`M`/`K` suffix multiplier, parse the rest as a
float. -/
def parseMoney (validated : String) : Option ℚ :=
  let clean := stripChars validated ['$', ',']
  let mb : ℚ × String :=
    if strEndsWith clean "B" then (1000000000, .mk (clean.data.dropLast))
    else if strEndsWith clean "M" then (1000000, .mk (clean.data.dropLast))
    else if strEndsWith clean "K" then (1000, .mk (clean.data.dropLast))
    else (1, clean)
  match parseDecimal mb.2 with
  | some v => some (v * mb.1)
  | none => none

/-- Extraction of one of the `tam/sam/som` numeric values in
`_check_market_size_hierarchy`: the metric's `validated` field must be a
truthy string that parses as a money amount. -/
def metricValidatedValue (ma : JVal) (metric : String) : Option ℚ :=
  match jlookup ma metric with
  | some md =>
    match jlookup md "validated" with
    | some (.str s) => if s != "" then parseMoney s else none
    | _ => none
  | none => none

/-- Issue/fix pair for one hierarchy violation (`parent <= child`) in
`_check_market_size_hierarchy`; the fix proposes 25% of the parent and is
only emitted when the parent is positive.  `fieldName`, the labels and
`fixField` are the literals of the corresponding source block. -/
def hierarchyViolation (fieldName parentLabel childLabel fixField : String) (ma : JVal)
    (parent child : ℚ) : List Issue × List Fix :=
  if parent ≤ child then
    ([⟨"MarketAnalysis", fieldName,
       "Market size hierarchy violation: " ++ parentLabel ++ " (" ++
         formatMoney0 parent ++ ") <= " ++ childLabel ++ " (" ++
         formatMoney0 child ++ ")",
       "high"⟩],
     if 0 < parent then
       [⟨"MarketAnalysis", fixField ++ ".validated",
         jget (jget ma fixField) "validated",
         .str (formatMoney0 (parent * 0.25)),
         some ("Adjusted " ++ childLabel ++ " to 25% of " ++ parentLabel ++
           " to maintain proper hierarchy")⟩]
     else [])
  else ([], [])

/-- `ConsistencyChecker._check_market_size_hierarchy`. -/
def checkMarketSizeHierarchy (analysis : List (String × JVal)) : List Issue × List Fix :=
  match analysis.lookup "MarketAnalysis" with
  | none => ([], [])
  | some ma =>
    let tam? := metricValidatedValue ma "tam"
    let sam? := metricValidatedValue ma "sam"
    let som? := metricValidatedValue ma "som"
    let ts :=
      match tam?, sam? with
      | some tam, some sam => hierarchyViolation "tam_sam_hierarchy" "TAM" "SAM" "sam" ma tam sam
      | _, _ => ([], [])
    let ss :=
      match sam?, som? with
      | some sam, some som => hierarchyViolation "sam_som_hierarchy" "SAM" "SOM" "som" ma sam som
      | _, _ => ([], [])
    (ts.1 ++ ss.1, ts.2 ++ ss.2)

/-- Year extraction from a revenue `period` in `_check_cagr_calculations`:
`"YYYY-YY"` takes the digits before the dash, a bare 4-digit string is
taken whole.  (A non-string truthy `period` makes the source abort the
whole rule through its catch-all handler; no modelled input does that.) -/
def revenueYear (period : String) : Option ℤ :=
  if period != "" && period.data.contains '-' then
    let ys := (splitOnChar '-' period.data).headD []
    if isDigitStr ys then some ((digitsToNat ys : ℤ)) else none
  else if period != "" && isDigitStr period.data && period.data.length = 4 then
    some ((digitsToNat period.data : ℤ))
  else none

/-- Dated-revenue extraction loop of `_check_cagr_calculations`: entries
with a missing value are skipped, and `if year:` keeps only nonzero parsed
years.  (A non-numeric present value aborts the rule in the source and is
not modelled.) -/
def datedRevenues (revenues : List JVal) : List (ℤ × ℚ) :=
  revenues.filterMap (fun rev =>
    let period := match jlookup rev "period" with
                  | some (.str s) => s
                  | _ => ""
    match jlookup rev "value" with
    | some (.num v) =>
      match revenueYear period with
      | some y => if y ≠ 0 then some (y, v) else none
      | none => none
    | _ => none)

/-- Revenue list as read by the CAGR rule:
`normalized_data.get("finance", {}).get("revenues", [])`. -/
def financeRevenues (normalized : JVal) : List JVal :=
  match jlookup (jgetD normalized "finance" (.obj [])) "revenues" with
  | some (.arr es) => es
  | _ => []

/-- Guarded start/end/span extraction of `_check_cagr_calculations`: at
least two revenue entries, at least two dated points after sorting by year,
positive start revenue and a positive year span. -/
def cagrRevenueStats (normalized : JVal) : Option (ℚ × ℚ × ℤ) :=
  let revenues := financeRevenues normalized
  if revenues.length < 2 then none
  else
    match (datedRevenues revenues).insertionSort (fun a b => a.1 ≤ b.1) with
    | a :: b :: rest =>
      let last := (b :: rest).getLastD a
      let years := last.1 - a.1
      if a.2 ≤ 0 ∨ years ≤ 0 then none
      else some (a.2, last.2, years)
    | _ => none

/-- Claimed-CAGR extraction of `_check_cagr_calculations` from
`analysis_results["MarketAnalysis"]["cagr"]`: a truthy string `claimed`
parsed as a float after removing `%`, paired with the rule's
`cagr_data.get("validated")` used in the fix. -/
def cagrClaimed (analysis : List (String × JVal)) : Option (ℚ × JVal) :=
  match analysis.lookup "MarketAnalysis" with
  | some ma =>
    match jlookup ma "cagr" with
    | some cagrData =>
      match jlookup cagrData "claimed" with
      | some (.str s) =>
        if s != "" then
          match parseDecimal (stripChars s ['%']) with
          | some c => some (c, jget cagrData "validated")
          | none => none
        else none
      | _ => none
    | none => none
  | none => none

/-- The real-valued CAGR percentage
`((end_revenue / start_revenue) ** (1 / years) - 1) * 100`. -/
noncomputable def cagrPct (startRev endRev : ℚ) (years : ℤ) : ℝ :=
  (((endRev / startRev : ℚ) : ℝ) ^ ((1 : ℝ) / (years : ℝ)) - 1) * 100

/-- CAGR issue record; the source interpolates the two percentages into the
message with `:.1f` formatting, which is kept here as the numeric fields
`claimed` and `calculated`. -/
structure CagrIssue where
  sec : String
  field : String
  severity : String
  claimed : ℚ
  calculated : ℝ

/-- CAGR fix record; `corrected` keeps the numeric calculated percentage
that the source formats as a one-decimal percent string. -/
structure CagrFix where
  sec : String
  field : String
  current : JVal
  corrected : ℝ

/-- `ConsistencyChecker._check_cagr_calculations`: compare the claimed CAGR
against the one computed from the earliest and latest dated revenues with a
5-percentage-point tolerance. -/
noncomputable def checkCagrCalculations (normalized : JVal)
    (analysis : List (String × JVal)) : List CagrIssue × List CagrFix :=
  match cagrRevenueStats normalized with
  | none => ([], [])
  | some (s, e, y) =>
    match cagrClaimed analysis with
    | none => ([], [])
    | some (c, cur) =>
      if 5 < |(c : ℝ) - cagrPct s e y| then
        ([⟨"MarketAnalysis", "cagr", "medium", c, cagrPct s e y⟩],
         [⟨"MarketAnalysis", "cagr.validated", cur, cagrPct s e y⟩])
      else ([], [])

/-! ## Schema normalizer (`src/schema_normalizer.py`) -/

/-- List content of a value (`extraction.get(k, [])` used for iteration:
iterating a non-list yields no dict elements, hence the empty list). -/
def jarr : JVal → List JVal
  | .arr es => es
  | _ => []

/-- `SchemaNormalizer._normalize_currency`: Python's
`if not currency_data or not isinstance(currency_data, dict)` sends
everything but a nonempty dict to the all-default result; otherwise the
value is converted to USD when a string currency other than `"USD"` is
present, the original pair is kept under `raw`, and the output currency is
always `"USD"`. -/
def normalizeCurrency (cfgRates : List (String × ℚ)) (currencyData : JVal) : JVal :=
  match currencyData with
  | .obj (f :: fs) =>
    let cd := JVal.obj (f :: fs)
    let value := jget cd "value"
    let currency := jgetD cd "currency" (.str "USD")
    let raw := match value with
               | .null => JVal.null
               | v => .obj [("value", v), ("currency", currency)]
    let valueUsd :=
      match value, currency with
      | .num v, .str c =>
        if c != "" && c != "USD" then
          JVal.num (convert_currency v c "USD" (getCurrencyRates cfgRates))
        else .num v
      | v, _ => v
    .obj [("value", valueUsd), ("currency", .str "USD"), ("raw", raw)]
  | _ => .obj [("value", .null), ("currency", .str "USD"), ("raw", .null)]

/-- `SchemaNormalizer._normalize_founders`. -/
def normalizeFounders (founders : List JVal) : List JVal :=
  founders.filterMap (fun f =>
    match f with
    | .obj _ =>
      some (.obj [("name", jget f "name"), ("title", jget f "title"),
                  ("linkedin", jget f "linkedin"), ("bio", jget f "bio")])
    | _ => none)

/-- Element step of `SchemaNormalizer._normalize_revenues` (non-dict
entries are skipped). -/
def normalizeRevenueItem (cfgRates : List (String × ℚ)) (rev : JVal) : Option JVal :=
  match rev with
  | .obj _ =>
    let value := jget rev "value"
    let currency := jgetD rev "currency" (.str "USD")
    let period :=
      let y := jget rev "year"
      let q := jget rev "quarter"
      if y.truthy then y else if q.truthy then q else jget rev "period"
    let raw := match value with
               | .null => JVal.null
               | v => .obj [("value", v), ("currency", currency)]
    let valueUsd :=
      match value, currency with
      | .num v, .str c =>
        if c != "" && c != "USD" then
          JVal.num (convert_currency v c "USD" (getCurrencyRates cfgRates))
        else .num v
      | v, _ => v
    some (.obj [("period", period), ("value", valueUsd), ("currency", .str "USD"),
                ("raw", raw)])
  | _ => none

/-- String form of a revenue period, when it is a string. -/
def revenuePeriodStr (r : JVal) : Option String :=
  match jlookup r "period" with
  | some (.str s) => some s
  | _ => none

/-- Numeric form of a revenue period, when it is a number. -/
def revenuePeriodNum (r : JVal) : Option ℚ :=
  match jlookup r "period" with
  | some (.num q) => some q
  | _ => none

/-- Sorting step of `_normalize_revenues`: Python sorts by `period` inside
a `try`, leaving the list untouched when the periods are not mutually
comparable (`TypeError`); all-string and all-number periods are the
comparable cases that occur. -/
def sortRevenues (rs : List JVal) : List JVal :=
  if rs.all (fun r => (revenuePeriodStr r).isSome) then
    rs.insertionSort (fun a b =>
      ((revenuePeriodStr a).getD "") ≤ ((revenuePeriodStr b).getD ""))
  else if rs.all (fun r => (revenuePeriodNum r).isSome) then
    rs.insertionSort (fun a b =>
      ((revenuePeriodNum a).getD 0) ≤ ((revenuePeriodNum b).getD 0))
  else rs

/-- `SchemaNormalizer._normalize_revenues`. -/
def normalizeRevenues (cfgRates : List (String × ℚ)) (revenues : List JVal) : List JVal :=
  sortRevenues (revenues.filterMap (normalizeRevenueItem cfgRates))

mutual

/-- `SchemaNormalizer._get_paths`: dotted paths of every dict key in a
nested structure, recursing into dict values and into the elements of
lists (list elements extend the same path). -/
def getPaths : JVal → String → List String
  | .obj fields, cur => getPathsFields fields cur
  | .arr elems, cur => getPathsElems elems cur
  | _, _ => []

/-- Dict case of `_get_paths`: every key adds a path, nested values
recurse. -/
def getPathsFields : List (String × JVal) → String → List String
  | [], _ => []
  | (k, v) :: rest, cur =>
    let np := if cur = "" then k else cur ++ "." ++ k
    (np :: getPaths v np) ++ getPathsFields rest cur

/-- List case of `_get_paths`. -/
def getPathsElems : List JVal → String → List String
  | [], _ => []
  | v :: rest, cur => getPaths v cur ++ getPathsElems rest cur

end

/-- `SchemaNormalizer._get_by_path` (missing keys and non-dict nodes give
Python `None`). -/
def getByPath (j : JVal) : List String → JVal
  | [] => j
  | k :: rest => getByPath (jget j k) rest

/-- Decision of `_extract_extras` for one extraction path: the path is
kept when it is not a string suffix (`str.endswith`) of any canonical path
and its value is non-null; the kept value is returned. -/
def extraCandidate (extraction : JVal) (canonicalPaths : List String) (p : String) :
    Option JVal :=
  if canonicalPaths.any (fun cp => strEndsWith cp p) then none
  else
    match getByPath extraction ((splitOnChar '.' p.data).map (fun cs => String.mk cs)) with
    | .null => none
    | v => some v

/-- `SchemaNormalizer._extract_extras`: keep every extraction path that is
not a string suffix of some canonical path and whose value is non-null.
Python iterates a set of paths and builds a dict; the model deduplicates
the path list and builds an association list with the same key-value
content. -/
def extractExtras (extraction canonical : JVal) : List (String × JVal) :=
  ((getPaths extraction "").dedup).filterMap (fun p =>
    (extraCandidate extraction (getPaths canonical "") p).map (fun v => (p, v)))

/-- Populated canonical document of `SchemaNormalizer.normalize` before the
`extras` assignment (the deep-copied template with every mapped field
filled in and `extras` still `{}`). -/
def canonicalBase (cfgRates : List (String × ℚ)) (rawData : JVal) : JVal :=
  let extraction := jgetD rawData "extraction" (.obj [])
  .obj [
    ("metadata", .obj [
      ("company_name", jget extraction "company_name"),
      ("tagline", jget extraction "tagline"),
      ("website", jget extraction "website"),
      ("date", jget extraction "date"),
      ("source", jget rawData "source"),
      ("client_id", jget rawData "clientId"),
      ("original_file_name", jget rawData "originalFileName")]),
    ("contact", .obj [
      ("email", jget extraction "email"),
      ("phone", jget extraction "phone"),
      ("address", jget extraction "address")]),
    ("team", .obj [
      ("founders", .arr (normalizeFounders (jarr (jgetD extraction "founders" (.arr []))))),
      ("experience", jget extraction "experience")]),
    ("market", .obj [
      ("tam", normalizeCurrency cfgRates (jget extraction "tam")),
      ("sam", normalizeCurrency cfgRates (jget extraction "sam")),
      ("som", normalizeCurrency cfgRates (jget extraction "som")),
      ("cagr", jget extraction "cagr"),
      ("domain", jget extraction "domain"),
      ("sub_domain", jget extraction "sub_domain")]),
    ("positioning", .obj [
      ("problem_statement", jget extraction "problem_statement"),
      ("solution", jget extraction "solution"),
      ("usp", jget extraction "USP"),
      ("competitors", jgetD extraction "competitors" (.arr []))]),
    ("finance", .obj [
      ("arr", normalizeCurrency cfgRates (jget extraction "arr")),
      ("mrr", normalizeCurrency cfgRates (jget extraction "mrr")),
      ("total_revenue", normalizeCurrency cfgRates (jget extraction "total_revenue")),
      ("gross_profit", normalizeCurrency cfgRates (jget extraction "gross_profit")),
      ("ebita", normalizeCurrency cfgRates (jget extraction "ebita")),
      ("year_on_year_growth", jget extraction "year_on_year_growth"),
      ("revenues", .arr (normalizeRevenues cfgRates (jarr (jgetD extraction "revenues" (.arr []))))),
      ("runway", jget extraction "runway")]),
    ("fundraise", .obj [
      ("ask", normalizeCurrency cfgRates (jget extraction "ask")),
      ("valuation", normalizeCurrency cfgRates (jget extraction "valuation")),
      ("funds_raised", normalizeCurrency cfgRates (jget extraction "funds_raised"))]),
    ("gtm", .obj [
      ("revenue_streams", jgetD extraction "revenue_streams" (.arr [])),
      ("business_model", jget extraction "business_model"),
      ("channels", jgetD extraction "channels" (.arr []))]),
    ("units", .obj [("base_currency", .str "USD")]),
    ("extras", .obj [])]

/-- Replacement of one top-level field of an object (the
`canonical["extras"] = ...` assignment). -/
def setField (j : JVal) (key : String) (v : JVal) : JVal :=
  match j with
  | .obj fields => .obj (fields.map (fun kv => if kv.1 = key then (kv.1, v) else kv))
  | other => other

/-- `SchemaNormalizer.normalize`: fill the canonical template, then store
the unmapped extraction fields under `extras` (the final
`base_currency = "USD"` assignment rewrites the value the template already
holds). -/
def normalize (cfgRates : List (String × ℚ)) (rawData : JVal) : JVal :=
  let canonical := canonicalBase cfgRates rawData
  let extraction := jgetD rawData "extraction" (.obj [])
  setField canonical "extras" (.obj (extractExtras extraction canonical))

/-! ## Pipeline orchestrator (`src/orchestrator.py`) -/

/-- Outcomes of the orchestrator's collaborators for one run: availability
flags mirror `self.available_agents`, the `Except` values model a normal
return versus a raised exception. -/
structure AgentSet where
  fetcherAvailable : Bool
  normalizerAvailable : Bool
  marketAvailable : Bool
  financeAvailable : Bool
  fetch : Except String JVal
  normalizeRun : JVal → Except String JVal
  marketProcess : JVal → Except String JVal
  financeProcess : JVal → Except String JVal

/-- The slice of `self.results` that carries the run's data and scores
(presentation-only fields — timestamps, summary text, pros/red-flag
boilerplate — are not modelled). -/
structure PipelineResult where
  pitchId : String
  clientId : JVal
  rawData : JVal
  storedNormalizedData : Option JVal
  normalizedData : JVal
  analysis : List (String × JVal)
  finalIrsScore : ℤ
  finalCsScore : ℤ
  uniqueness : ℤ

/-- A finished run: either the error-response dict of
`_generate_error_response` (fetcher unavailable) or the results dict. -/
inductive PipelineOutcome where
  | errorResponse (msg : String)
  | result (r : PipelineResult)

/-- `Orchestrator._process_pitch_async`: a fetch exception propagates
(`Except.error`); a normalization exception degrades to passing the raw
document through; an analysis-agent exception is replaced by an
`{error: message}` entry; the run then always produces a result. -/
def processPitch (agents : AgentSet) (pitchId : String) : Except String PipelineOutcome :=
  if !agents.fetcherAvailable then
    .ok (.errorResponse "Data fetching not available")
  else
    match agents.fetch with
    | .error e => .error e
    | .ok rawData =>
      let nd : JVal × Option JVal :=
        if rawData.truthy && agents.normalizerAvailable then
          match agents.normalizeRun rawData with
          | .ok d => (d, some d)
          | .error _ => (rawData, none)
        else (rawData, none)
      let analysis₁ : List (String × JVal) :=
        if agents.marketAvailable then
          match agents.marketProcess nd.1 with
          | .ok r => [("MarketAnalysis", r)]
          | .error e => [("MarketAnalysis", .obj [("error", .str e)])]
        else []
      let analysis₂ : List (String × JVal) :=
        if agents.financeAvailable then
          match agents.financeProcess nd.1 with
          | .ok r => [("Finance", r)]
          | .error e => [("Finance", .obj [("error", .str e)])]
        else []
      let analysis := analysis₁ ++ analysis₂
      .ok (.result {
        pitchId := pitchId
        clientId := jget rawData "clientId"
        rawData := rawData
        storedNormalizedData := nd.2
        normalizedData := nd.1
        analysis := analysis
        finalIrsScore := calculateInvestmentScore analysis
        finalCsScore := calcConfidenceScore analysis
        uniqueness := calculateUniquenessScore })

/-! ## Concrete instances used by counterexamples and witnesses -/

/-- An analyses map whose only category is error-shaped
(`{"error": message}`), as produced by the orchestrator when a provider
raises. -/
def errorAnalyses : List (String × JVal) :=
  [("MarketAnalysis", .obj [("error", .str "market analysis failed")])]

/-- A weight override setting all six categories to zero. -/
def zeroOverride : List (String × ℚ) :=
  [("MarketAnalysis", 0), ("CompetitiveLandscape", 0), ("ProductMarketFit", 0),
   ("Finance", 0), ("WhyAnalysis", 0), ("Scalability", 0)]

/-- A weight override doubling all six defaults; its entries sum to 2.0. -/
def doubledOverride : List (String × ℚ) :=
  [("MarketAnalysis", 0.40), ("CompetitiveLandscape", 0.30), ("ProductMarketFit", 0.40),
   ("Finance", 0.50), ("WhyAnalysis", 0.20), ("Scalability", 0.20)]

/-- MarketAnalysis results with `tam.validated = "$100M"` and
`sam.validated = "$150M"` (TAM ≤ SAM). -/
def c5Market : JVal :=
  .obj [("tam", .obj [("validated", .str "$100M")]),
        ("sam", .obj [("validated", .str "$150M")])]

/-- Analyses map for the market-hierarchy scenario. -/
def c5Analyses : List (String × JVal) := [("MarketAnalysis", c5Market)]

/-- Normalized data with the revenue series
`[{period: "2021", value: 100}, {period: "2023", value: 144}]`. -/
def c6Normalized : JVal :=
  .obj [("finance", .obj [("revenues", .arr
    [.obj [("period", .str "2021"), ("value", .num 100)],
     .obj [("period", .str "2023"), ("value", .num 144)]])])]

/-- Analyses map claiming a 50% CAGR. -/
def c6Analyses : List (String × JVal) :=
  [("MarketAnalysis", .obj [("cagr", .obj [("claimed", .str "50%")])])]

/-- Normalized data whose base currency is USD. -/
def usdNormalized : JVal := .obj [("units", .obj [("base_currency", .str "USD")])]

/-- A Finance analysis section whose monetary metric `arr` declares the
unit `EUR` (differing from the USD base currency). -/
def c8Finance : JVal := .obj [("arr", .obj [("unit", .str "EUR")])]

/-- Analyses map containing only the mismatching `Finance.arr` metric. -/
def c8Analyses : List (String × JVal) := [("Finance", c8Finance)]

/-- Analyses map whose `MarketAnalysis.tam` declares the unit `INR`. -/
def c8MarketAnalyses : List (String × JVal) :=
  [("MarketAnalysis", .obj [("tam", .obj [("unit", .str "INR")])])]

/-- A raw document whose extraction holds a single unmapped field named
`currency` (a string suffix of the canonical path `market.tam.currency`). -/
def c2Raw : JVal := .obj [("extraction", .obj [("currency", .str "EUR")])]

/-- A raw document whose extraction holds a single unmapped field whose
name is not a suffix of any canonical path. -/
def c2KeptRaw : JVal := .obj [("extraction", .obj [("growth_strategy", .str "expand")])]

/-- A raw document exercising a currency leaf and a revenue entry. -/
def c3Raw : JVal :=
  .obj [("extraction", .obj [
    ("tam", .obj [("value", .num 5000000), ("currency", .str "USD")]),
    ("revenues", .arr [.obj [("period", .str "2021"), ("value", .num 10)]])])]

/-- The normalized form of the single revenue entry of `c3Raw`. -/
def c3Rev0 : JVal :=
  .obj [("period", .str "2021"), ("value", .num 10), ("currency", .str "USD"),
        ("raw", .obj [("value", .num 10), ("currency", .str "USD")])]

/-- The section/field addresses of every `CurrencyAmount` leaf of the
canonical schema. -/
def currencyLeafPaths : List (String × String) :=
  [("market", "tam"), ("market", "sam"), ("market", "som"),
   ("finance", "arr"), ("finance", "mrr"), ("finance", "total_revenue"),
   ("finance", "gross_profit"), ("finance", "ebita"),
   ("fundraise", "ask"), ("fundraise", "valuation"), ("fundraise", "funds_raised")]

end VCPitch

namespace VCPitch

/-! ## Helper lemmas -/

/-- Distributing a division over the weight total of a rescaled table. -/
theorem weightTotal_map_div (l : List (String × ℚ)) (t : ℚ) :
    weightTotal (l.map (fun kw => (kw.1, kw.2 / t))) = weightTotal l / t := by
  induction l with
  | nil => simp [weightTotal]
  | cons a as ih =>
    unfold weightTotal at ih ⊢
    simp only [List.map_cons, List.sum_cons, ih, add_div]

/-- The default configuration (no overrides) normalizes to the default
weight table itself, whose weights already sum to 1. -/
theorem getWeights_nil : getWeights [] = DEFAULT_WEIGHTS := by
  have hm : mergeWeights [] = DEFAULT_WEIGHTS := by rfl
  have ht : weightTotal DEFAULT_WEIGHTS = 1 := by
    norm_num [weightTotal, DEFAULT_WEIGHTS]
  rw [getWeights, if_pos (by rw [hm, ht]; norm_num), hm, ht]
  simp [DEFAULT_WEIGHTS]

/-- Banker's rounding stays inside an integer-bounded interval. -/
theorem pyRound_bounds (q : ℚ) (hlo : 5 ≤ q) (hhi : q ≤ 10) :
    5 ≤ pyRound q ∧ pyRound q ≤ 10 := by
  have hf5 : (5 : ℤ) ≤ ⌊q⌋ := Int.le_floor.mpr (by exact_mod_cast hlo)
  have hf10 : ⌊q⌋ ≤ 10 := by
    have h : (⌊q⌋ : ℚ) ≤ 10 := le_trans (Int.floor_le q) hhi
    exact_mod_cast h
  have hup : ¬ (q - ⌊q⌋ < 1 / 2) → ⌊q⌋ + 1 ≤ 10 := by
    intro h
    have h2 : (⌊q⌋ : ℚ) + 1 / 2 ≤ q := by linarith [not_lt.mp h]
    have h3 : (⌊q⌋ : ℚ) < 10 := by linarith
    have h4 : ⌊q⌋ < 10 := by exact_mod_cast h3
    omega
  unfold pyRound
  split_ifs with h1 h2 h3
  · exact ⟨hf5, hf10⟩
  · exact ⟨by omega, hup h1⟩
  · exact ⟨hf5, hf10⟩
  · exact ⟨by omega, hup h1⟩

/-! ## C7 — currency conversion round trip -/

/-- C7: for every currency pair whose (positive) rates are both present in
the rate table and every amount, converting forth and back through the USD
pivot returns the original amount exactly (the exact-arithmetic form of
"up to floating tolerance"). -/
theorem convert_currency_roundtrip (v ra rb : ℚ) (a b : String)
    (rates : List (String × ℚ))
    (ha : rates.lookup a = some ra) (hb : rates.lookup b = some rb)
    (hra : 0 < ra) (hrb : 0 < rb) :
    convert_currency (convert_currency v a b rates) b a rates = v := by
  have hra0 : ra ≠ 0 := ne_of_gt hra
  have hrb0 : rb ≠ 0 := ne_of_gt hrb
  unfold convert_currency
  by_cases hab : a = b
  · simp [hab]
  · have hba : ¬ b = a := fun h => hab h.symm
    simp only [if_neg hab, if_neg hba, ha, hb]
    by_cases haU : a = "USD" <;> by_cases hbU : b = "USD"
    · exact absurd (haU.trans hbU.symm) hab
    · simp only [haU, hbU, ne_eq, not_true_eq_false, if_false, not_false_eq_true, if_true]
      field_simp
    · simp only [haU, hbU, ne_eq, not_true_eq_false, if_false, not_false_eq_true, if_true]
      field_simp
    · simp only [haU, hbU, ne_eq, not_false_eq_true, if_true]
      field_simp
      ring

/-- C7 witness: a 100 EUR → INR → EUR round trip over the default rate
table returns 100. -/
theorem convert_currency_roundtrip_witness :
    convert_currency (convert_currency 100 "EUR" "INR" (getCurrencyRates []))
      "INR" "EUR" (getCurrencyRates []) = 100 :=
  convert_currency_roundtrip 100 0.85 75.0 "EUR" "INR" (getCurrencyRates [])
    rfl rfl (by norm_num) (by norm_num)

/-! ## C4 — weight override merging and renormalization -/

/-- C4 counterexample: overriding all six weights with 0 leaves the merged
weights unnormalized (their sum is 0, not 1), because `_get_weights` only
renormalizes when the merged total is positive. -/
theorem getWeights_zeroOverride_not_normalized :
    ¬ weightTotal (getWeights zeroOverride) = 1 := by
  have hm : mergeWeights zeroOverride =
      [("MarketAnalysis", 0), ("CompetitiveLandscape", 0), ("ProductMarketFit", 0),
       ("Finance", 0), ("WhyAnalysis", 0), ("Scalability", 0)] := rfl
  have h0 : weightTotal (mergeWeights zeroOverride) = 0 := by
    rw [hm]; norm_num [weightTotal]
  intro h
  rw [getWeights] at h
  rw [if_neg (by rw [h0]; exact lt_irrefl 0)] at h
  rw [h0] at h
  exact absurd h (by norm_num)

/-- C4 (amended): whenever the per-key merged weights have positive total —
in particular for the all-doubled override summing to 2.0 — `_get_weights`
renormalizes them so the six weights sum to 1, each weight being the merged
weight divided by the merged total. -/
theorem getWeights_renormalizes (cfg : List (String × ℚ))
    (h : 0 < weightTotal (mergeWeights cfg)) :
    weightTotal (getWeights cfg) = 1 ∧
    getWeights cfg = (mergeWeights cfg).map
      (fun kw => (kw.1, kw.2 / weightTotal (mergeWeights cfg))) := by
  rw [getWeights, if_pos h]
  refine ⟨?_, rfl⟩
  rw [weightTotal_map_div]
  exact div_self (ne_of_gt h)

/-- C4 witness: the doubled override (entries summing to 2.0) is
renormalized to sum to 1. -/
theorem getWeights_renormalizes_witness :
    weightTotal (getWeights doubledOverride) = 1 := by
  refine (getWeights_renormalizes doubledOverride ?_).1
  have hm : mergeWeights doubledOverride =
      [("MarketAnalysis", 0.40), ("CompetitiveLandscape", 0.30), ("ProductMarketFit", 0.40),
       ("Finance", 0.50), ("WhyAnalysis", 0.20), ("Scalability", 0.20)] := rfl
  rw [hm]; norm_num [weightTotal]

/-! ## C10 — orchestrator confidence score -/

/-- C10: the orchestrator's confidence score is 6 on an empty analyses map
and otherwise `round(5 + 5·f)` for `f` the fraction of non-error
categories; in every case it is an integer in `[5, 10]`, so even a run in
which every provider failed reports at least 5. -/
theorem calcConfidenceScore_spec (a : List (String × JVal)) :
    calcConfidenceScore a = (if a.isEmpty then 6 else pyRound (5 + 5 * okFraction a)) ∧
    5 ≤ calcConfidenceScore a ∧ calcConfidenceScore a ≤ 10 := by
  cases a with
  | nil =>
    refine ⟨rfl, ?_, ?_⟩
    · show (5 : ℤ) ≤ 6
      norm_num
    · show (6 : ℤ) ≤ 10
      norm_num
  | cons hd tl =>
    have hform : calcConfidenceScore (hd :: tl) = pyRound (5 + 5 * okFraction (hd :: tl)) := by
      show (if (hd :: tl).length = 0 then (5 : ℤ)
            else pyRound (5 + okFraction (hd :: tl) * 5)) = _
      rw [if_neg (by simp), mul_comm]
    have hn : (0 : ℚ) < ((hd :: tl).length : ℚ) := by
      exact_mod_cast Nat.pos_of_ne_zero (by simp)
    have he : ((((hd :: tl).filter (fun kv => hasErrorKey kv.2)).length : ℚ)) ≤
        (((hd :: tl).length : ℚ)) := by
      exact_mod_cast List.length_filter_le _ _
    have hf0 : 0 ≤ okFraction (hd :: tl) := by
      unfold okFraction
      exact div_nonneg (by linarith) (le_of_lt hn)
    have hf1 : okFraction (hd :: tl) ≤ 1 := by
      unfold okFraction
      rw [div_le_one hn]
      have : (0 : ℚ) ≤ (((hd :: tl).filter (fun kv => hasErrorKey kv.2)).length : ℚ) := by
        positivity
      linarith
    have hb := pyRound_bounds (5 + 5 * okFraction (hd :: tl)) (by linarith) (by linarith)
    exact ⟨by rw [hform]; rfl, by rw [hform]; exact hb.1, by rw [hform]; exact hb.2⟩

/-! ## C1 — error-shaped categories in the scoring engine -/

/-- C1 counterexample: with the default weights and an analyses map whose
single category `MarketAnalysis` is the error object
`{"error": "market analysis failed"}`, `ScoringEngine.score` still creates
a `category_scores` entry for that category (via
`.get("category_average", 0)`), and the entry's weight makes the weight
sum of `overall_raw` nonzero — the error category is not skipped. -/
theorem scoring_error_category_included :
    ((scoreCategories (getWeights []) errorAnalyses none).map Prod.fst) = ["MarketAnalysis"] ∧
    ((scoreCategories (getWeights []) errorAnalyses none).map (fun c => c.2.weight)).sum ≠ 0 := by
  rw [getWeights_nil]
  refine ⟨rfl, ?_⟩
  have hl : (scoreCategories DEFAULT_WEIGHTS errorAnalyses none).map
      (fun c => c.2.weight) = [(0.20 : ℚ)] := by rfl
  rw [hl]
  norm_num

/-- C1 (amended): a weighted category whose analyses entry lacks
`category_average` (in particular an `{error}` object) is not skipped by
`ScoringEngine.score`: it receives a `category_scores` entry with raw and
adjusted score 0 and weighted score 0, and its weight enters the weight sum
of `overall_raw`. -/
theorem scoreCategories_error_entry (W : List (String × ℚ)) (A : List (String × JVal))
    (cat : String) (w : ℚ) (v : JVal)
    (hw : W.lookup cat = some w) (ha : A.lookup cat = some v)
    (herr : jlookup v "category_average" = none) :
    (scoreCategories W A none).lookup cat = some ⟨0, 0, w, 0⟩ := by
  induction W with
  | nil => simp at hw
  | cons kw rest ih =>
    rcases kw with ⟨k, w0⟩
    rw [scoreCategories, List.filterMap_cons]
    by_cases hk : cat = k
    · subst hk
      rw [List.lookup_cons, beq_self_eq_true] at hw
      simp only [ha]
      have hca : getCategoryAverage v = 0 := by
        unfold getCategoryAverage jnum
        rw [herr]
      have hadj : adjustScoreWithResearch (getCategoryAverage v) none = 0 := by
        rw [hca]; rfl
      simp only [List.lookup_cons, beq_self_eq_true, hca, hadj, zero_mul]
      simp only [Option.some.injEq] at hw
      rw [hw, show adjustScoreWithResearch 0 none = (0 : ℚ) from rfl, zero_mul]
    · have hkb : (cat == k) = false := beq_eq_false_iff_ne.mpr hk
      rw [List.lookup_cons, hkb] at hw
      cases hAk : A.lookup k with
      | none => simpa using ih hw
      | some u =>
        simp only [hAk]
        rw [List.lookup_cons, hkb]
        exact ih hw

/-- C1 witness: the amended statement at the concrete error-shaped analyses
map with the default weight table. -/
theorem pyRound_intCast (n : ℤ) : pyRound ((n : ℚ)) = n := by
  unfold pyRound
  rw [Int.floor_intCast, sub_self]
  norm_num

/-- C5: for MarketAnalysis results with `tam.validated = "$100M"` and
`sam.validated = "$150M"`, the market-hierarchy rule emits exactly one
high-severity issue for `tam_sam_hierarchy` and exactly one fix proposing
`sam.validated = "$25,000,000"` (0.25 × TAM). -/
theorem c5_market_hierarchy :
    checkMarketSizeHierarchy c5Analyses =
      ([⟨"MarketAnalysis", "tam_sam_hierarchy",
         "Market size hierarchy violation: TAM ($100,000,000) <= SAM ($150,000,000)",
         "high"⟩],
       [⟨"MarketAnalysis", "sam.validated", .str "$150M", .str "$25,000,000",
         some "Adjusted SAM to 25% of TAM to maintain proper hierarchy"⟩]) := by
  have e100 : (((100 : ℕ) : ℚ) * 1000000) = ((100000000 : ℤ) : ℚ) := by
    push_cast; norm_num
  have e150 : (((150 : ℕ) : ℚ) * 1000000) = ((150000000 : ℤ) : ℚ) := by
    push_cast; norm_num
  have e25 : ((100000000 : ℤ) : ℚ) * 0.25 = ((25000000 : ℤ) : ℚ) := by
    push_cast; norm_num
  have htam : metricValidatedValue c5Market "tam" = some (((100 : ℕ) : ℚ) * 1000000) := by rfl
  have hsam : metricValidatedValue c5Market "sam" = some (((150 : ℕ) : ℚ) * 1000000) := by rfl
  have hsom : metricValidatedValue c5Market "som" = none := by rfl
  unfold checkMarketSizeHierarchy
  rw [show List.lookup "MarketAnalysis" c5Analyses = some c5Market from by rfl]
  dsimp only
  rw [htam, hsam, hsom]
  dsimp only
  rw [e100, e150]
  unfold hierarchyViolation
  rw [if_pos (show ((100000000 : ℤ) : ℚ) ≤ ((150000000 : ℤ) : ℚ) by norm_num)]
  rw [if_pos (show (0 : ℚ) < ((100000000 : ℤ) : ℚ) by norm_num)]
  rw [e25]
  rw [show formatMoney0 ((100000000 : ℤ) : ℚ) = "$100,000,000" from by
    unfold formatMoney0; rw [pyRound_intCast]; rfl]
  rw [show formatMoney0 ((150000000 : ℤ) : ℚ) = "$150,000,000" from by
    unfold formatMoney0; rw [pyRound_intCast]; rfl]
  rw [show formatMoney0 ((25000000 : ℤ) : ℚ) = "$25,000,000" from by
    unfold formatMoney0; rw [pyRound_intCast]; rfl]
  rfl

theorem string_append_cancel_right (a b t : String) (h : a ++ t = b ++ t) : a = b := by
  have h2 : a.data ++ t.data = b.data ++ t.data := by
    have h3 := congrArg String.data h
    simpa [String.data_append] using h3
  have h4 : a.data = b.data := List.append_cancel_right h2
  cases a with
  | mk da =>
    cases b with
    | mk db =>
      have h5 : da = db := by simpa using h4
      rw [h5]

theorem currencyIssues_shape (sec base : String) (ex : List String) (sd : JVal)
    (ms : List String) :
    ∀ i ∈ currencyIssues sec base ex sd ms, i.sec = sec ∧ i.field ∈ ms := by
  intro i hi
  unfold currencyIssues at hi
  rw [List.mem_filterMap] at hi
  obtain ⟨m, hm, he⟩ := hi
  cases h : currencyMismatch base ex sd m with
  | none => rw [h] at he; simp at he
  | some u =>
    rw [h] at he
    simp only [Option.map_some', Option.some.injEq] at he
    rw [← he]
    exact ⟨rfl, hm⟩

theorem currencyFixes_shape (sec base : String) (ex : List String) (sd : JVal)
    (ms : List String) :
    ∀ fx ∈ currencyFixes sec base ex sd ms,
      fx.sec = sec ∧ ∃ m ∈ ms, fx.field = m ++ ".unit" := by
  intro fx hfx
  unfold currencyFixes at hfx
  rw [List.mem_filterMap] at hfx
  obtain ⟨m, hm, he⟩ := hfx
  cases h : currencyMismatch base ex sd m with
  | none => rw [h] at he; simp at he
  | some u =>
    rw [h] at he
    simp only [Option.map_some', Option.some.injEq] at he
    rw [← he]
    exact ⟨rfl, m, hm, rfl⟩

theorem currencyIssues_countP_one (sec base : String) (ex : List String) (sd : JVal)
    (ms : List String) (hnd : ms.Nodup) (m : String) (hm : m ∈ ms)
    (hms : (currencyMismatch base ex sd m).isSome) :
    (currencyIssues sec base ex sd ms).countP (fun i => i.field == m) = 1 := by
  induction ms with
  | nil => cases hm
  | cons a as ih =>
    rcases List.nodup_cons.mp hnd with ⟨hna, hnd'⟩
    have htail : currencyIssues sec base ex sd (a :: as) =
        ((currencyMismatch base ex sd a).map (fun unit =>
          Issue.mk sec a
            ("Currency mismatch: " ++ a ++ " uses " ++ unitDisplay unit ++
              " instead of " ++ base) "medium")).toList ++
          currencyIssues sec base ex sd as := by
      unfold currencyIssues
      rw [List.filterMap_cons]
      cases currencyMismatch base ex sd a <;> simp
    rcases List.mem_cons.mp hm with rfl | hmas
    · cases h : currencyMismatch base ex sd m with
      | none => rw [h] at hms; simp at hms
      | some u =>
        rw [htail, h]
        rw [List.countP_append]
        have hzero : (currencyIssues sec base ex sd as).countP (fun i => i.field == m) = 0 := by
          rw [List.countP_eq_zero]
          intro i hi hfe
          have hf := (currencyIssues_shape sec base ex sd as i hi).2
          rw [beq_iff_eq] at hfe
          exact hna (hfe ▸ hf)
        rw [hzero]
        simp
    · have ham : a ≠ m := fun h => hna (h ▸ hmas)
      rw [htail, List.countP_append]
      have hhead : ((currencyMismatch base ex sd a).map (fun unit =>
          Issue.mk sec a
            ("Currency mismatch: " ++ a ++ " uses " ++ unitDisplay unit ++
              " instead of " ++ base) "medium")).toList.countP (fun i => i.field == m) = 0 := by
        cases currencyMismatch base ex sd a with
        | none => rfl
        | some u => simp [List.countP_cons, ham]
      rw [hhead, ih hnd' hmas]

theorem currencyFixes_countP_one (sec base : String) (ex : List String) (sd : JVal)
    (ms : List String) (hnd : ms.Nodup) (m : String) (hm : m ∈ ms)
    (hms : (currencyMismatch base ex sd m).isSome) :
    (currencyFixes sec base ex sd ms).countP (fun fx => fx.field == m ++ ".unit") = 1 := by
  induction ms with
  | nil => cases hm
  | cons a as ih =>
    rcases List.nodup_cons.mp hnd with ⟨hna, hnd'⟩
    have htail : currencyFixes sec base ex sd (a :: as) =
        ((currencyMismatch base ex sd a).map (fun unit =>
          Fix.mk sec (a ++ ".unit") unit (.str base) none)).toList ++
          currencyFixes sec base ex sd as := by
      unfold currencyFixes
      rw [List.filterMap_cons]
      cases currencyMismatch base ex sd a <;> simp
    rcases List.mem_cons.mp hm with rfl | hmas
    · cases h : currencyMismatch base ex sd m with
      | none => rw [h] at hms; simp at hms
      | some u =>
        rw [htail, h, List.countP_append]
        have hzero : (currencyFixes sec base ex sd as).countP
            (fun fx => fx.field == m ++ ".unit") = 0 := by
          rw [List.countP_eq_zero]
          intro fx hfx hfe2
          obtain ⟨m', hm', hfe⟩ := (currencyFixes_shape sec base ex sd as fx hfx).2
          rw [beq_iff_eq] at hfe2
          have hmm' : m' ++ ".unit" = m ++ ".unit" := hfe.symm.trans hfe2
          exact hna (string_append_cancel_right m' m ".unit" hmm' ▸ hm')
        rw [hzero]
        simp
    · have ham : a ≠ m := fun h => hna (h ▸ hmas)
      rw [htail, List.countP_append]
      have hhead : ((currencyMismatch base ex sd a).map (fun unit =>
          Fix.mk sec (a ++ ".unit") unit (.str base) none)).toList.countP
            (fun fx => fx.field == m ++ ".unit") = 0 := by
        cases currencyMismatch base ex sd a with
        | none => rfl
        | some u =>
          simp only [Option.map_some', Option.toList_some, List.countP_cons,
            List.countP_nil, beq_eq_false_iff_ne, ne_eq]
          have : (a ++ ".unit" == m ++ ".unit") = false := by
            simp only [beq_eq_false_iff_ne, ne_eq]
            intro he
            exact ham (string_append_cancel_right a m ".unit" he)
          simp [this]
      rw [hhead, ih hnd' hmas]

theorem currencyFixes_mem (sec base : String) (ex : List String) (sd : JVal)
    (ms : List String) (m : String) (hm : m ∈ ms) (u : JVal)
    (hms : currencyMismatch base ex sd m = some u) :
    Fix.mk sec (m ++ ".unit") u (.str base) none ∈ currencyFixes sec base ex sd ms := by
  unfold currencyFixes
  rw [List.mem_filterMap]
  exact ⟨m, hm, by rw [hms]; rfl⟩

/-- C8 counterexample: with a USD base currency, the monetary metric
`Finance.arr` declaring the unit `EUR` produces no issue and no fix —
`_check_currency_consistency` only inspects a fixed list of metrics
(`tam/sam/som`, `gross_margin/ebitda/valuation/ask`), so `arr` is never
checked despite its unit differing from the base currency. -/
theorem currencyConsistency_misses_arr :
    checkCurrencyConsistency usdNormalized c8Analyses = ([], []) ∧
    baseCurrencyOf usdNormalized = "USD" ∧
    jget (jget c8Finance "arr") "unit" = JVal.str "EUR" :=
  ⟨by rfl, by rfl, by rfl⟩

/-- C8 (amended): restricted to the metrics the rule covers —
`tam/sam/som` in `MarketAnalysis` and `gross_margin/ebitda/valuation/ask`
in `Finance`, the latter exempting `Percent` and `Ratio` units — every
covered metric whose truthy declared unit differs from the base currency
yields exactly one medium-severity issue and exactly one fix correcting
that metric's unit to the base currency. -/
theorem countP_congr_mem {α} (l : List α) (p q : α → Bool)
    (h : ∀ a ∈ l, p a = q a) : l.countP p = l.countP q := by
  induction l with
  | nil => rfl
  | cons a as ih =>
    rw [List.countP_cons, List.countP_cons, h a (List.mem_cons_self a as),
      ih (fun x hx => h x (List.mem_cons_of_mem a hx))]

theorem checkCurrency_eq (nd : JVal) (A : List (String × JVal)) :
    checkCurrencyConsistency nd A =
      ((sectionPair "MarketAnalysis" (baseCurrencyOf nd) [] (A.lookup "MarketAnalysis")
          marketCurrencyMetrics).1 ++
        (sectionPair "Finance" (baseCurrencyOf nd) ["Percent", "Ratio"] (A.lookup "Finance")
          financeCurrencyMetrics).1,
       (sectionPair "MarketAnalysis" (baseCurrencyOf nd) [] (A.lookup "MarketAnalysis")
          marketCurrencyMetrics).2 ++
        (sectionPair "Finance" (baseCurrencyOf nd) ["Percent", "Ratio"] (A.lookup "Finance")
          financeCurrencyMetrics).2) := by
  unfold checkCurrencyConsistency sectionPair
  cases A.lookup "MarketAnalysis" <;> cases A.lookup "Finance" <;> rfl

theorem sectionPair_issues_shape (sec base : String) (ex : List String)
    (opt : Option JVal) (ms : List String) :
    ∀ i ∈ (sectionPair sec base ex opt ms).1,
      i.sec = sec ∧ i.field ∈ ms ∧ i.severity = "medium" := by
  intro i hi
  cases opt with
  | none => cases hi
  | some sd =>
    have hi' : i ∈ currencyIssues sec base ex sd ms := hi
    have hs := currencyIssues_shape sec base ex sd ms i hi'
    refine ⟨hs.1, hs.2, ?_⟩
    unfold currencyIssues at hi'
    rw [List.mem_filterMap] at hi'
    obtain ⟨m, _, he⟩ := hi'
    cases h : currencyMismatch base ex sd m with
    | none => rw [h] at he; simp at he
    | some u =>
      rw [h] at he
      simp only [Option.map_some', Option.some.injEq] at he
      rw [← he]

theorem sectionPair_fixes_shape (sec base : String) (ex : List String)
    (opt : Option JVal) (ms : List String) :
    ∀ fx ∈ (sectionPair sec base ex opt ms).2, fx.sec = sec := by
  intro fx hfx
  cases opt with
  | none => cases hfx
  | some sd => exact (currencyFixes_shape sec base ex sd ms fx hfx).1

theorem sectionPair_issue_count (sec base : String) (ex : List String) (sd : JVal)
    (ms : List String) (hnd : ms.Nodup) (m : String) (hm : m ∈ ms) (u : JVal)
    (hmm : currencyMismatch base ex sd m = some u) :
    (sectionPair sec base ex (some sd) ms).1.countP
      (fun i => i.sec == sec && i.field == m && i.severity == "medium") = 1 := by
  have hc := countP_congr_mem (sectionPair sec base ex (some sd) ms).1
    (fun i => i.sec == sec && i.field == m && i.severity == "medium")
    (fun i => i.field == m) ?_
  · rw [hc]
    exact currencyIssues_countP_one sec base ex sd ms hnd m hm (by rw [hmm]; rfl)
  · intro i hi
    obtain ⟨h1, _, h3⟩ := sectionPair_issues_shape sec base ex (some sd) ms i hi
    simp [h1, h3]

theorem sectionPair_fix_count (sec base : String) (ex : List String) (sd : JVal)
    (ms : List String) (hnd : ms.Nodup) (m : String) (hm : m ∈ ms) (u : JVal)
    (hmm : currencyMismatch base ex sd m = some u) :
    (sectionPair sec base ex (some sd) ms).2.countP
      (fun fx => fx.sec == sec && fx.field == m ++ ".unit") = 1 := by
  have hc := countP_congr_mem (sectionPair sec base ex (some sd) ms).2
    (fun fx => fx.sec == sec && fx.field == m ++ ".unit")
    (fun fx => fx.field == m ++ ".unit") ?_
  · rw [hc]
    exact currencyFixes_countP_one sec base ex sd ms hnd m hm (by rw [hmm]; rfl)
  · intro fx hfx
    simp [sectionPair_fixes_shape sec base ex (some sd) ms fx hfx]

theorem sectionPair_count_zero_issues (sec base : String) (ex : List String)
    (opt : Option JVal) (ms : List String) (sec' m : String) (hne : sec ≠ sec') :
    (sectionPair sec base ex opt ms).1.countP
      (fun i => i.sec == sec' && i.field == m && i.severity == "medium") = 0 := by
  rw [List.countP_eq_zero]
  intro i hi hp
  obtain ⟨h1, _, _⟩ := sectionPair_issues_shape sec base ex opt ms i hi
  simp only [Bool.and_eq_true, beq_iff_eq] at hp
  exact hne (h1 ▸ hp.1.1)

theorem sectionPair_count_zero_fixes (sec base : String) (ex : List String)
    (opt : Option JVal) (ms : List String) (sec' m : String) (hne : sec ≠ sec') :
    (sectionPair sec base ex opt ms).2.countP
      (fun fx => fx.sec == sec' && fx.field == m ++ ".unit") = 0 := by
  rw [List.countP_eq_zero]
  intro fx hfx hp
  have h1 := sectionPair_fixes_shape sec base ex opt ms fx hfx
  simp only [Bool.and_eq_true, beq_iff_eq] at hp
  exact hne (h1 ▸ hp.1)

/-- C8 (amended): restricted to the metrics the rule covers —
`tam/sam/som` in `MarketAnalysis` and `gross_margin/ebitda/valuation/ask`
in `Finance`, the latter exempting `Percent` and `Ratio` units — every
covered metric whose truthy declared unit differs from the base currency
yields exactly one medium-severity issue and exactly one fix correcting
that metric's unit to the base currency. -/
theorem checkCurrency_covered_mismatch (nd : JVal) (A : List (String × JVal)) :
    (∀ ma m u, A.lookup "MarketAnalysis" = some ma → m ∈ marketCurrencyMetrics →
      currencyMismatch (baseCurrencyOf nd) [] ma m = some u →
      ((checkCurrencyConsistency nd A).1.countP
          (fun i => i.sec == "MarketAnalysis" && i.field == m && i.severity == "medium") = 1 ∧
       (checkCurrencyConsistency nd A).2.countP
          (fun fx => fx.sec == "MarketAnalysis" && fx.field == m ++ ".unit") = 1 ∧
       Fix.mk "MarketAnalysis" (m ++ ".unit") u (.str (baseCurrencyOf nd)) none
         ∈ (checkCurrencyConsistency nd A).2)) ∧
    (∀ fa m u, A.lookup "Finance" = some fa → m ∈ financeCurrencyMetrics →
      currencyMismatch (baseCurrencyOf nd) ["Percent", "Ratio"] fa m = some u →
      ((checkCurrencyConsistency nd A).1.countP
          (fun i => i.sec == "Finance" && i.field == m && i.severity == "medium") = 1 ∧
       (checkCurrencyConsistency nd A).2.countP
          (fun fx => fx.sec == "Finance" && fx.field == m ++ ".unit") = 1 ∧
       Fix.mk "Finance" (m ++ ".unit") u (.str (baseCurrencyOf nd)) none
         ∈ (checkCurrencyConsistency nd A).2)) := by
  constructor
  · intro ma m u hma hm hmm
    rw [checkCurrency_eq, hma]
    refine ⟨?_, ?_, ?_⟩
    · rw [List.countP_append,
        sectionPair_issue_count "MarketAnalysis" (baseCurrencyOf nd) [] ma
          marketCurrencyMetrics (by decide) m hm u hmm,
        sectionPair_count_zero_issues "Finance" (baseCurrencyOf nd) ["Percent", "Ratio"]
          (A.lookup "Finance") financeCurrencyMetrics "MarketAnalysis" m (by decide)]
    · rw [List.countP_append,
        sectionPair_fix_count "MarketAnalysis" (baseCurrencyOf nd) [] ma
          marketCurrencyMetrics (by decide) m hm u hmm,
        sectionPair_count_zero_fixes "Finance" (baseCurrencyOf nd) ["Percent", "Ratio"]
          (A.lookup "Finance") financeCurrencyMetrics "MarketAnalysis" m (by decide)]
    · exact List.mem_append_left _
        (currencyFixes_mem "MarketAnalysis" (baseCurrencyOf nd) [] ma
          marketCurrencyMetrics m hm u hmm)
  · intro fa m u hfa hm hmm
    rw [checkCurrency_eq, hfa]
    refine ⟨?_, ?_, ?_⟩
    · rw [List.countP_append,
        sectionPair_issue_count "Finance" (baseCurrencyOf nd) ["Percent", "Ratio"] fa
          financeCurrencyMetrics (by decide) m hm u hmm,
        sectionPair_count_zero_issues "MarketAnalysis" (baseCurrencyOf nd) []
          (A.lookup "MarketAnalysis") marketCurrencyMetrics "Finance" m (by decide)]
    · rw [List.countP_append,
        sectionPair_fix_count "Finance" (baseCurrencyOf nd) ["Percent", "Ratio"] fa
          financeCurrencyMetrics (by decide) m hm u hmm,
        sectionPair_count_zero_fixes "MarketAnalysis" (baseCurrencyOf nd) []
          (A.lookup "MarketAnalysis") marketCurrencyMetrics "Finance" m (by decide)]
    · exact List.mem_append_right _
        (currencyFixes_mem "Finance" (baseCurrencyOf nd) ["Percent", "Ratio"] fa
          financeCurrencyMetrics m hm u hmm)

/-- C8 witness: the amended statement at a USD-based pitch whose
`MarketAnalysis.tam` declares the unit `INR`. -/
theorem checkCurrency_covered_mismatch_witness :
    (checkCurrencyConsistency usdNormalized c8MarketAnalyses).1.countP
        (fun i => i.sec == "MarketAnalysis" && i.field == "tam" &&
          i.severity == "medium") = 1 ∧
    Fix.mk "MarketAnalysis" "tam.unit" (.str "INR") (.str "USD") none
      ∈ (checkCurrencyConsistency usdNormalized c8MarketAnalyses).2 := by
  have h := (checkCurrency_covered_mismatch usdNormalized c8MarketAnalyses).1
    (.obj [("tam", .obj [("unit", .str "INR")])]) "tam" (.str "INR") (by rfl)
    (by decide) (by rfl)
  exact ⟨h.1, h.2.2⟩

/-- C6: for normalized revenues `[{period:"2021", value:100},
{period:"2023", value:144}]` the CAGR rule computes
`(144/100)^(1/2) − 1 = 20%` from the earliest and latest dated points, and
a claimed CAGR of 50% (differing by 30 > 5 percentage points) produces one
medium-severity issue and a fix set to the calculated value (which the
source renders as the string `"20.0%"`). -/
theorem c6_cagr :
    checkCagrCalculations c6Normalized c6Analyses =
      ([⟨"MarketAnalysis", "cagr", "medium", 50, 20⟩],
       [⟨"MarketAnalysis", "cagr.validated", .null, 20⟩]) := by
  have hstats : cagrRevenueStats c6Normalized = some (100, 144, 2) := by rfl
  have hclaim : cagrClaimed c6Analyses = some ((((50 : ℕ)) : ℚ), JVal.null) := by rfl
  have hpow : cagrPct 100 144 2 = 20 := by
    unfold cagrPct
    have h1 : ((144 / 100 : ℚ) : ℝ) = (1.2 : ℝ) ^ (2 : ℕ) := by norm_num
    have h2 : ((2 : ℤ) : ℝ) = ((2 : ℕ) : ℝ) := by norm_num
    rw [h1, h2, ← Real.rpow_natCast (1.2 : ℝ) 2,
      ← Real.rpow_mul (by norm_num : (0 : ℝ) ≤ 1.2),
      show ((2 : ℕ) : ℝ) * ((1 : ℝ) / ((2 : ℕ) : ℝ)) = 1 by norm_num,
      Real.rpow_one]
    norm_num
  unfold checkCagrCalculations
  rw [hstats]
  dsimp only
  rw [hclaim]
  dsimp only
  rw [hpow, show (((50 : ℕ)) : ℚ) = (50 : ℚ) from by norm_num,
    show (((50 : ℚ)) : ℝ) = (50 : ℝ) from by norm_num,
    if_pos (show (5 : ℝ) < |(50 : ℝ) - 20| from by norm_num)]

theorem lookup_filterMap_key (l : List String) (hnd : l.Nodup) (g : String → Option JVal)
    (p : String) (hp : p ∈ l) (v : JVal) (hg : g p = some v) :
    (l.filterMap (fun q => (g q).map (fun x => (q, x)))).lookup p = some v := by
  induction l with
  | nil => cases hp
  | cons a as ih =>
    rcases List.nodup_cons.mp hnd with ⟨hna, hnd'⟩
    rw [List.filterMap_cons]
    rcases List.mem_cons.mp hp with rfl | hpas
    · rw [hg]
      simp [List.lookup]
    · have hap : (p == a) = false :=
        beq_eq_false_iff_ne.mpr (fun h => hna (h ▸ hpas))
      cases hga : g a with
      | none => exact ih hnd' hpas
      | some w =>
        simp only [Option.map_some']
        rw [List.lookup_cons, hap]
        exact ih hnd' hpas

theorem normalize_extras (cfgRates : List (String × ℚ)) (raw : JVal) :
    jget (normalize cfgRates raw) "extras" =
      .obj (extractExtras (jgetD raw "extraction" (.obj []))
        (canonicalBase cfgRates raw)) := by
  rfl

/-- C2 counterexample: for the raw document
`{extraction: {currency: "EUR"}}` the extraction path `currency` is not
mapped to any canonical field by `normalize` (the normalizer never reads a
top-level `currency` key), yet the normalizer's `extras` is empty — the
field is silently dropped because `_extract_extras` discards any path that
is a string suffix of some canonical path (here `market.tam.currency`). -/
theorem extras_drops_currency_field :
    jget (normalize [] c2Raw) "extras" = JVal.obj [] ∧
    getPaths (jgetD c2Raw "extraction" (.obj [])) "" = ["currency"] ∧
    jget (jgetD c2Raw "extraction" (.obj [])) "currency" = JVal.str "EUR" :=
  ⟨by rfl, by rfl, by rfl⟩

/-- C2 (amended): every dotted path reachable in `raw.extraction` that is
not a string suffix (`str.endswith`) of any path of the populated canonical
document — a weaker condition than "not mapped to a canonical path" — and
whose value is non-null appears verbatim under the `extras` section of the
normalizer's output. -/
theorem normalize_extras_retains (cfgRates : List (String × ℚ)) (raw : JVal)
    (p : String) (v : JVal)
    (hp : p ∈ getPaths (jgetD raw "extraction" (.obj [])) "")
    (hnc : ∀ cp ∈ getPaths (canonicalBase cfgRates raw) "", strEndsWith cp p = false)
    (hval : getByPath (jgetD raw "extraction" (.obj []))
        ((splitOnChar '.' p.data).map (fun cs => String.mk cs)) = v)
    (hvnn : v ≠ JVal.null) :
    jlookup (jget (normalize cfgRates raw) "extras") p = some v := by
  rw [normalize_extras]
  show (extractExtras (jgetD raw "extraction" (.obj []))
    (canonicalBase cfgRates raw)).lookup p = some v
  unfold extractExtras
  apply lookup_filterMap_key
  · exact List.nodup_dedup _
  · exact List.mem_dedup.mpr hp
  · unfold extraCandidate
    have hany : ((getPaths (canonicalBase cfgRates raw) "").any
        (fun cp => strEndsWith cp p)) = false := by
      rw [List.any_eq_false]
      intro cp hcp
      simp [hnc cp hcp]
    rw [if_neg (by simp [hany]), hval]
    cases v with
    | null => exact absurd rfl hvnn
    | bool b => rfl
    | num q => rfl
    | str s => rfl
    | arr es => rfl
    | obj fs => rfl

/-- C2 witness: the unmapped extraction field `growth_strategy` (not a
suffix of any canonical path) is retained verbatim under `extras`. -/
theorem normalize_extras_retains_witness :
    jlookup (jget (normalize [] c2KeptRaw) "extras") "growth_strategy" =
      some (JVal.str "expand") :=
  normalize_extras_retains [] c2KeptRaw "growth_strategy" (.str "expand")
    (by decide) (by decide) (by rfl) (fun h => JVal.noConfusion h)

theorem normalizeCurrency_currency (cfgRates : List (String × ℚ)) (cd : JVal) :
    jget (normalizeCurrency cfgRates cd) "currency" = JVal.str "USD" := by
  cases cd with
  | obj fields =>
    cases fields with
    | nil => rfl
    | cons fd fs => rfl
  | null => rfl
  | bool b => rfl
  | num q => rfl
  | str s => rfl
  | arr es => rfl

theorem sortRevenues_subset (rs : List JVal) : ∀ r ∈ sortRevenues rs, r ∈ rs := by
  intro r hr
  unfold sortRevenues at hr
  split_ifs at hr
  · exact (List.perm_insertionSort _ rs).subset hr
  · exact (List.perm_insertionSort _ rs).subset hr
  · exact hr

theorem normalizeRevenues_currency (cfgRates : List (String × ℚ)) (revs : List JVal) :
    ∀ r ∈ normalizeRevenues cfgRates revs, jget r "currency" = JVal.str "USD" := by
  intro r hr
  have hr' : r ∈ revs.filterMap (normalizeRevenueItem cfgRates) :=
    sortRevenues_subset _ r hr
  rw [List.mem_filterMap] at hr'
  obtain ⟨x, _, hx⟩ := hr'
  cases x with
  | obj fs =>
    simp only [normalizeRevenueItem, Option.some.injEq] at hx
    rw [← hx]
    rfl
  | null => simp [normalizeRevenueItem] at hx
  | bool b => simp [normalizeRevenueItem] at hx
  | num q => simp [normalizeRevenueItem] at hx
  | str s => simp [normalizeRevenueItem] at hx
  | arr es => simp [normalizeRevenueItem] at hx

/-- C3: for every raw document and rate configuration, the normalized
pitch has `units.base_currency = "USD"`, every `CurrencyAmount` leaf
(tam, sam, som, arr, mrr, total_revenue, gross_profit, ebita, ask,
valuation, funds_raised) carries `currency = "USD"`, and every normalized
revenue entry carries `currency = "USD"`. -/
theorem c3_normalize_usd (cfgRates : List (String × ℚ)) (raw : JVal) :
    jget (jget (normalize cfgRates raw) "units") "base_currency" = JVal.str "USD" ∧
    (∀ sp ∈ currencyLeafPaths,
      jget (jget (jget (normalize cfgRates raw) sp.1) sp.2) "currency" = JVal.str "USD") ∧
    (∀ r ∈ jarr (jget (jget (normalize cfgRates raw) "finance") "revenues"),
      jget r "currency" = JVal.str "USD") := by
  refine ⟨by rfl, ?_, ?_⟩
  · intro sp hsp
    fin_cases hsp <;> exact normalizeCurrency_currency cfgRates _
  · intro r hr
    have hr' : r ∈ normalizeRevenues cfgRates
        (jarr (jgetD (jgetD raw "extraction" (.obj [])) "revenues" (.arr []))) := hr
    exact normalizeRevenues_currency cfgRates _ r hr'

/-- C3 witness: the invariant at a concrete raw document with a populated
`tam` leaf and one revenue entry. -/
theorem c3_normalize_usd_witness :
    jget (jget (jget (normalize [] c3Raw) "market") "tam") "currency" = JVal.str "USD" ∧
    jget c3Rev0 "currency" = JVal.str "USD" := by
  refine ⟨(c3_normalize_usd [] c3Raw).2.1 ("market", "tam") (by decide), ?_⟩
  exact (c3_normalize_usd [] c3Raw).2.2 c3Rev0
    (show c3Rev0 ∈ [c3Rev0] from List.mem_singleton.mpr rfl)

/-- C9: after a successful fetch, a normalizer that raises does not fail
the run — the orchestrator substitutes the raw document for the normalized
data (storing no `normalized_data` key) and still produces a result — while
a fetch exception is re-raised as the run's failure. -/
theorem c9_degraded_normalization (raw : JVal) (pid e e2 : String) (mA fA : Bool)
    (m f n2 : JVal → Except String JVal) :
    (∃ r, processPitch ⟨true, true, mA, fA, .ok raw, fun _ => .error e, m, f⟩ pid =
        .ok (.result r) ∧ r.normalizedData = raw ∧ r.storedNormalizedData = none) ∧
    processPitch ⟨true, true, mA, fA, .error e2, n2, m, f⟩ pid = .error e2 := by
  constructor
  · unfold processPitch
    cases hrt : raw.truthy with
    | false =>
      simp only [hrt, Bool.false_and, Bool.not_true, Bool.false_eq_true, if_false]
      exact ⟨_, rfl, rfl, rfl⟩
    | true =>
      simp only [hrt, Bool.true_and, Bool.not_true, Bool.false_eq_true, if_false, if_true]
      exact ⟨_, rfl, rfl, rfl⟩
  · rfl

theorem scoreCategories_error_entry_witness :
    (scoreCategories (getWeights []) errorAnalyses none).lookup "MarketAnalysis" =
      some ⟨0, 0, 0.20, 0⟩ := by
  rw [getWeights_nil]
  exact scoreCategories_error_entry DEFAULT_WEIGHTS errorAnalyses "MarketAnalysis" 0.20
    (.obj [("error", .str "market analysis failed")]) (by rfl) (by rfl) (by rfl)

end VCPitch
